import Mathlib

/-!
Shallow embedding of the A3-SearchEngine core (index builder, index reader,
query engine) and proofs about the claims of its specification.

Modelling conventions:
* Python floats are modelled as rationals `ℚ`; the transcendental library
  functions `math.log` and `math.sqrt` are external collaborators and appear
  as abstract parameters `rlog rsqrt : ℚ → ℚ`.
* The tokenizer/stemmer (nltk + bs4, an external collaborator per the spec)
  appears as abstract parameters: a query tokenizer `String → List String`
  and a document parser `String → List (String × TokenStats)` (an association
  list models a Python dict, whose iteration order is insertion order).
* Python dicts with int/string keys are modelled as association lists or as
  functions into `Option`; Python sets are modelled as duplicate-free lists,
  whose iteration order is unspecified in Python anyway.
* Python's stable `sort` is modelled by the stable `List.insertionSort`.
-/

namespace SearchEngineModel

/-- Mirrors `Posting` of `index_builder.py` / `index_reader.py`. -/
structure Posting where
  doc_id : Nat
  weighted_tf : ℚ
  raw_tf : Nat
  avg_position : ℚ
  deriving DecidableEq, Repr

/-- Mirrors `LexiconEntry` of `index_reader.py`. -/
structure LexiconEntry where
  term : String
  doc_freq : Nat
  offset : Nat
  length : Nat
  deriving DecidableEq, Repr

/-- Mirrors `SearchResult` of `search_engine.py`. -/
structure SearchResult where
  doc_id : Nat
  url : String
  score : ℚ
  deriving DecidableEq, Repr

/-- The reader's in-memory view of an on-disk index: the cached lexicon dict,
the postings block reachable from a lexicon entry (`get_postings`'s
seek+read+deserialize, a pure function of the entry for a fixed index),
`stats.json`'s `num_documents`, and the `doc_lookup` / `doc_lengths` dicts. -/
structure IndexData where
  lexicon : String → Option LexiconEntry
  blockFor : LexiconEntry → List Posting
  num_documents : Nat
  doc_lookup : Nat → Option String
  doc_lengths : Nat → Option ℚ

/-- Mirrors `IndexReader.get_postings`: empty list when the term is absent
from the lexicon, otherwise the deserialized block for its entry. -/
def get_postings (idx : IndexData) (term : String) : List Posting :=
  match idx.lexicon term with
  | none => []
  | some e => idx.blockFor e

/-- Mirrors `IndexReader.get_doc_freq`. -/
def get_doc_freq (idx : IndexData) (term : String) : Nat :=
  match idx.lexicon term with
  | none => 0
  | some e => e.doc_freq

/-- Mirrors `IndexReader.get_url` (`doc_lookup.get(doc_id)`). -/
def get_url (idx : IndexData) (d : Nat) : Option String :=
  idx.doc_lookup d

/-- Mirrors `IndexReader.get_doc_length` (`doc_lengths.get(doc_id, 1.0)`). -/
def get_doc_length (idx : IndexData) (d : Nat) : ℚ :=
  (idx.doc_lengths d).getD 1

/-- Mirrors `IndexReader.compute_idf`: `0.0` when `doc_freq` is `0`,
otherwise `log (num_docs / doc_freq)`. -/
def compute_idf (rlog : ℚ → ℚ) (idx : IndexData) (term : String) : ℚ :=
  if get_doc_freq idx term = 0 then 0
  else rlog ((idx.num_documents : ℚ) / (get_doc_freq idx term : ℚ))

/-- The set of `doc_id`s of a postings list
(`{posting.doc_id for posting in postings}`), as a duplicate-free list. -/
def docIdList (ps : List Posting) : List Nat :=
  (ps.map Posting.doc_id).dedup

/-- Mirrors `SearchEngine._boolean_and`: start from the first term's document
set and intersect with each remaining term's set.  The Python code folds over
the keys of the `term_postings` dict (the distinct query terms in first-seen
order); folding over the full term list yields the same intersection since
intersection is idempotent. -/
def boolean_and (idx : IndexData) (terms : List String) : List Nat :=
  match terms with
  | [] => []
  | t :: rest =>
    rest.foldl (fun acc u => acc.filter (fun d => d ∈ docIdList (get_postings idx u)))
      (docIdList (get_postings idx t))

/-- Mirrors the `posting_map` dict `{posting.doc_id: posting for posting in
postings}` followed by `.get(doc_id)`: on duplicate `doc_id`s the later
entry wins, hence the search over the reversed list. -/
def postingFor (ps : List Posting) (d : Nat) : Option Posting :=
  ps.reverse.find? (fun p => p.doc_id == d)

/-- One query term's tf-idf contribution to one candidate document, mirroring
the inner loop of `SearchEngine._score_documents`. -/
def termContribution (rlog rsqrt : ℚ → ℚ) (idx : IndexData) (term : String)
    (d : Nat) : ℚ :=
  match postingFor (get_postings idx term) d with
  | none => 0
  | some p =>
    let doc_length := get_doc_length idx d
    let normalized_tf :=
      if 0 < doc_length then p.weighted_tf / rsqrt doc_length
      else p.weighted_tf
    normalized_tf * compute_idf rlog idx term

/-- The score of one candidate document: the sum of `termContribution` over
the query terms, with multiplicity (the Python loop `for term in query_terms`
does not deduplicate). -/
def scoreDoc (rlog rsqrt : ℚ → ℚ) (idx : IndexData) (query_terms : List String)
    (d : Nat) : ℚ :=
  query_terms.foldl (fun s t => s + termContribution rlog rsqrt idx t d) 0

/-- Mirrors `SearchEngine._score_documents`: for each candidate document,
compute its score and keep it only when `get_url` yields a non-empty URL
(`if url:` in Python rejects both `None` and `""`). -/
def score_documents (rlog rsqrt : ℚ → ℚ) (idx : IndexData)
    (candidate_docs : List Nat) (query_terms : List String) :
    List SearchResult :=
  candidate_docs.filterMap (fun d =>
    match get_url idx d with
    | none => none
    | some u =>
      if u = "" then none
      else some ⟨d, u, scoreDoc rlog rsqrt idx query_terms d⟩)

/-- Python list slicing `l[:k]` for an arbitrary integer `k`: a nonnegative
`k` keeps the first `k` elements, a negative `k` drops the last `|k|`. -/
def pyTake (k : ℤ) (l : List SearchResult) : List SearchResult :=
  if 0 ≤ k then l.take k.toNat else l.take (l.length - (-k).toNat)

/-- The comparison used by `scored_results.sort(key=..., reverse=True)`:
descending by score (stable on ties, like Python's sort). -/
def scoreDescRel (a b : SearchResult) : Prop :=
  b.score ≤ a.score

instance : DecidableRel scoreDescRel := fun a b =>
  inferInstanceAs (Decidable (b.score ≤ a.score))

/-- Mirrors `scored_results.sort(key=lambda r: r.score, reverse=True)`:
a stable sort, descending by score. -/
def sortByScoreDesc (l : List SearchResult) : List SearchResult :=
  l.insertionSort scoreDescRel

/-- Mirrors `SearchEngine.search` after query parsing: empty query returns
`[]`; any term with empty postings returns `[]`; otherwise intersect, score,
sort descending and slice to `top_k`. -/
def searchTerms (rlog rsqrt : ℚ → ℚ) (idx : IndexData)
    (query_terms : List String) (top_k : ℤ) : List SearchResult :=
  if query_terms.isEmpty then []
  else if query_terms.any (fun t => (get_postings idx t).isEmpty) then []
  else
    let candidate_docs := boolean_and idx query_terms
    if candidate_docs.isEmpty then []
    else
      pyTake top_k
        (sortByScoreDesc (score_documents rlog rsqrt idx candidate_docs query_terms))

/-- Mirrors `SearchEngine._parse_query`: the external tokenizer+stemmer
applied to the query string. -/
def parse_query (stem_tokenize : String → List String) (q : String) :
    List String :=
  stem_tokenize q

/-- Mirrors `SearchEngine.search` on a raw query string. -/
def search (rlog rsqrt : ℚ → ℚ) (stem_tokenize : String → List String)
    (idx : IndexData) (q : String) (top_k : ℤ) : List SearchResult :=
  searchTerms rlog rsqrt idx (parse_query stem_tokenize q) top_k

/-! Concrete sample index used by witnesses and counterexamples: two
documents, both containing "cat" and "dog", with the weighted term
frequencies of the spec's worked scenario. -/

def p_cat0 : Posting := ⟨0, 5, 1, 1⟩

def p_cat1 : Posting := ⟨1, 2, 2, 3/2⟩

def p_dog0 : Posting := ⟨0, 2, 2, 5/2⟩

def p_dog1 : Posting := ⟨1, 1, 1, 3⟩

def lexCat : LexiconEntry := ⟨"cat", 2, 0, 10⟩

def lexDog : LexiconEntry := ⟨"dog", 2, 10, 10⟩

def idx0 : IndexData where
  lexicon := fun t =>
    if t = "cat" then some lexCat else if t = "dog" then some lexDog else none
  blockFor := fun e =>
    if e = lexCat then [p_cat0, p_cat1]
    else if e = lexDog then [p_dog0, p_dog1]
    else []
  num_documents := 2
  doc_lookup := fun d =>
    if d = 0 then some "http://a" else if d = 1 then some "http://b" else none
  doc_lengths := fun d =>
    if d = 0 then some 1 else if d = 1 then some 1 else none

/-- A trivial model of `math.log` used in concrete instantiations. -/
def rl1 : ℚ → ℚ := fun _ => 1

/-- A trivial model of `math.sqrt` used in concrete instantiations. -/
def rs1 : ℚ → ℚ := fun _ => 1

example : searchTerms rl1 rs1 idx0 ["cat"] 5 =
    [⟨0, "http://a", 5⟩, ⟨1, "http://b", 2⟩] := by
  norm_num [searchTerms, boolean_and, docIdList, get_postings, idx0, lexCat,
    lexDog, p_cat0, p_cat1, p_dog0, p_dog1, score_documents, get_url,
    scoreDoc, termContribution, postingFor, get_doc_length, compute_idf,
    get_doc_freq, pyTake, sortByScoreDesc, List.insertionSort,
    List.orderedInsert, scoreDescRel, rl1, rs1, List.dedup, List.pwFilter]

example : searchTerms rl1 rs1 idx0 ["cat"] (-1) = [⟨0, "http://a", 5⟩] := by
  norm_num [searchTerms, boolean_and, docIdList, get_postings, idx0, lexCat,
    lexDog, p_cat0, p_cat1, p_dog0, p_dog1, score_documents, get_url,
    scoreDoc, termContribution, postingFor, get_doc_length, compute_idf,
    get_doc_freq, pyTake, sortByScoreDesc, List.insertionSort,
    List.orderedInsert, scoreDescRel, rl1, rs1, List.dedup, List.pwFilter]

example : searchTerms rl1 rs1 idx0 ["zebra"] 5 = [] := by decide

instance : IsTotal SearchResult scoreDescRel :=
  ⟨fun a b => le_total b.score a.score⟩

instance : IsTrans SearchResult scoreDescRel :=
  ⟨fun _ _ _ h1 h2 => le_trans h2 h1⟩

theorem sorted_sortByScoreDesc (l : List SearchResult) :
    (sortByScoreDesc l).Sorted scoreDescRel :=
  List.sorted_insertionSort scoreDescRel l

theorem perm_sortByScoreDesc (l : List SearchResult) :
    List.Perm (sortByScoreDesc l) l :=
  List.perm_insertionSort scoreDescRel l

theorem pyTake_sublist (k : ℤ) (l : List SearchResult) :
    (pyTake k l).Sublist l := by
  unfold pyTake
  split <;> exact List.take_sublist _ _

theorem length_pyTake_le (k : ℤ) (l : List SearchResult) (hk : 0 ≤ k) :
    (pyTake k l).length ≤ k.toNat := by
  unfold pyTake
  rw [if_pos hk]
  simp [List.length_take]

theorem pyTake_of_length_le (k : ℤ) (l : List SearchResult) (hk : 0 ≤ k)
    (h : (l.length : ℤ) ≤ k) : pyTake k l = l := by
  unfold pyTake
  rw [if_pos hk]
  exact List.take_of_length_le (by omega)

theorem mem_foldl_inter (f : String → List Nat) (rest : List String)
    (init : List Nat) (d : Nat) :
    (d ∈ rest.foldl (fun acc u => acc.filter (fun x => x ∈ f u)) init) ↔
      d ∈ init ∧ ∀ u ∈ rest, d ∈ f u := by
  induction rest generalizing init with
  | nil => simp
  | cons u rest ih =>
    rw [List.foldl_cons, ih]
    simp only [List.mem_filter, decide_eq_true_eq, List.mem_cons]
    constructor
    · rintro ⟨⟨h1, h2⟩, h3⟩
      exact ⟨h1, fun v hv => hv.elim (fun he => he ▸ h2) (h3 v)⟩
    · rintro ⟨h1, h2⟩
      exact ⟨⟨h1, h2 u (Or.inl rfl)⟩, fun v hv => h2 v (Or.inr hv)⟩

theorem mem_score_documents {rlog rsqrt : ℚ → ℚ} {idx : IndexData}
    {cands : List Nat} {terms : List String} {r : SearchResult}
    (h : r ∈ score_documents rlog rsqrt idx cands terms) :
    r.doc_id ∈ cands ∧ get_url idx r.doc_id = some r.url ∧ r.url ≠ "" ∧
      r.score = scoreDoc rlog rsqrt idx terms r.doc_id := by
  rw [score_documents, List.mem_filterMap] at h
  obtain ⟨d, hd, hr⟩ := h
  cases hu : get_url idx d with
  | none => simp [hu] at hr
  | some u =>
    simp only [hu] at hr
    by_cases he : u = ""
    · rw [if_pos he] at hr; exact absurd hr (by simp)
    · rw [if_neg he] at hr
      cases Option.some.inj hr
      exact ⟨hd, hu, he, rfl⟩

theorem score_documents_map_doc_id (rlog rsqrt : ℚ → ℚ) (idx : IndexData)
    (cands : List Nat) (terms : List String)
    (h : ∀ d ∈ cands, ∃ u, get_url idx d = some u ∧ u ≠ "") :
    (score_documents rlog rsqrt idx cands terms).map SearchResult.doc_id =
      cands := by
  induction cands with
  | nil => rfl
  | cons d cs ih =>
    obtain ⟨u, hu, hne⟩ := h d (List.mem_cons_self d cs)
    rw [score_documents, List.filterMap_cons] at *
    rw [hu]
    simp only [if_neg hne]
    rw [List.map_cons]
    exact congrArg (d :: ·) (ih (fun x hx => h x (List.mem_cons_of_mem d hx)))

theorem mem_searchTerms {rlog rsqrt : ℚ → ℚ} {idx : IndexData}
    {terms : List String} {k : ℤ} {r : SearchResult}
    (h : r ∈ searchTerms rlog rsqrt idx terms k) :
    r.doc_id ∈ boolean_and idx terms ∧
      get_url idx r.doc_id = some r.url ∧ r.url ≠ "" := by
  simp only [searchTerms] at h
  split at h
  · exact absurd h (List.not_mem_nil r)
  · split at h
    · exact absurd h (List.not_mem_nil r)
    · split at h
      · exact absurd h (List.not_mem_nil r)
      · have h1 : r ∈ sortByScoreDesc
            (score_documents rlog rsqrt idx (boolean_and idx terms) terms) :=
          (pyTake_sublist k _).mem h
        have h2 := (perm_sortByScoreDesc _).mem_iff.mp h1
        have h3 := mem_score_documents h2
        exact ⟨h3.1, h3.2.1, h3.2.2.1⟩

/-- C4: `compute_idf term` is `0.0` whenever the document frequency of the
term is `0`, and is `log (N / df)` — with `log` the external `math.log`
collaborator — whenever `df > 0`, where `N` is the total document count and
`df = get_doc_freq term`. -/
theorem C4_compute_idf (rlog : ℚ → ℚ) (idx : IndexData) (t : String) :
    (get_doc_freq idx t = 0 → compute_idf rlog idx t = 0) ∧
      (0 < get_doc_freq idx t →
        compute_idf rlog idx t =
          rlog ((idx.num_documents : ℚ) / (get_doc_freq idx t : ℚ))) := by
  constructor
  · intro h
    rw [compute_idf, if_pos h]
  · intro h
    rw [compute_idf, if_neg (Nat.pos_iff_ne_zero.mp h)]

/-- Witness for C4 at a concrete index: the term "cat" has `doc_freq = 2 > 0`
in `idx0`, and `compute_idf` there equals `log (2 / 2)`; the term "zebra" has
`doc_freq = 0` and idf `0`. -/
theorem C4_compute_idf_witness :
    0 < get_doc_freq idx0 "cat" ∧
      compute_idf rl1 idx0 "cat" =
        rl1 ((idx0.num_documents : ℚ) / (get_doc_freq idx0 "cat" : ℚ)) ∧
      get_doc_freq idx0 "zebra" = 0 ∧ compute_idf rl1 idx0 "zebra" = 0 :=
  ⟨by decide, (C4_compute_idf rl1 idx0 "cat").2 (by decide), by decide,
    (C4_compute_idf rl1 idx0 "zebra").1 (by decide)⟩

/-- C9: query terms are not deduplicated before the scoring loop — the score
of a document is the sum, with multiplicity, of the per-term tf-idf
contributions over the query-term list, so a term occurring `n` times in the
query multiplies its contribution by `n`. -/
theorem C9_repeated_query_terms (rlog rsqrt : ℚ → ℚ) (idx : IndexData)
    (terms : List String) (d : Nat) (n : Nat) (t : String) :
    scoreDoc rlog rsqrt idx terms d =
        (terms.map (fun u => termContribution rlog rsqrt idx u d)).sum ∧
      scoreDoc rlog rsqrt idx (List.replicate n t) d =
        (n : ℚ) * termContribution rlog rsqrt idx t d := by
  have key : ∀ (l : List String) (s : ℚ),
      l.foldl (fun a u => a + termContribution rlog rsqrt idx u d) s =
        s + (l.map (fun u => termContribution rlog rsqrt idx u d)).sum := by
    intro l
    induction l with
    | nil => intro s; simp
    | cons u l ih =>
      intro s
      rw [List.foldl_cons, ih, List.map_cons, List.sum_cons]
      ring
  constructor
  · rw [scoreDoc, key, zero_add]
  · rw [scoreDoc, key, zero_add, List.map_replicate, List.sum_replicate,
      nsmul_eq_mul]

/-- C10: every result returned by the search pipeline carries the URL that
`doc_lookup` assigns to its `doc_id`, and that URL is non-empty; a candidate
whose `doc_id` has no URL, or the empty-string URL, is silently omitted. -/
theorem C10_url_filter (rlog rsqrt : ℚ → ℚ) (idx : IndexData)
    (terms : List String) (k : ℤ) :
    (∀ r ∈ searchTerms rlog rsqrt idx terms k,
        get_url idx r.doc_id = some r.url ∧ r.url ≠ "") ∧
      (∀ d : Nat, (get_url idx d = none ∨ get_url idx d = some "") →
        ∀ r ∈ searchTerms rlog rsqrt idx terms k, r.doc_id ≠ d) := by
  constructor
  · intro r hr
    exact (mem_searchTerms hr).2
  · intro d hd r hr heq
    obtain ⟨_, hu, hne⟩ := mem_searchTerms hr
    rw [heq] at hu
    cases hd with
    | inl h => rw [h] at hu; exact Option.noConfusion hu
    | inr h => rw [h] at hu; exact hne (Option.some.inj hu).symm

/-- The sample index with the URL of document 1 replaced by the empty
string; used to witness the URL filtering of C10. -/
def idx2 : IndexData where
  lexicon := idx0.lexicon
  blockFor := idx0.blockFor
  num_documents := 2
  doc_lookup := fun d =>
    if d = 0 then some "http://a" else if d = 1 then some "" else none
  doc_lengths := idx0.doc_lengths

/-- Witness for C10: in `idx2` document 1 matches "cat" but has the empty
URL, and the result list (here containing document 0) omits it. -/
theorem C10_url_filter_witness :
    get_url idx2 1 = some "" ∧
      SearchResult.mk 0 "http://a" 5 ∈ searchTerms rl1 rs1 idx2 ["cat"] 5 ∧
      SearchResult.doc_id (SearchResult.mk 0 "http://a" 5) ≠ 1 := by
  have hsearch : searchTerms rl1 rs1 idx2 ["cat"] 5 =
      [SearchResult.mk 0 "http://a" 5] := by
    norm_num [searchTerms, boolean_and, docIdList, get_postings, idx2, idx0,
      lexCat, lexDog, p_cat0, p_cat1, p_dog0, p_dog1, score_documents,
      get_url, scoreDoc, termContribution, postingFor, get_doc_length,
      compute_idf, get_doc_freq, pyTake, sortByScoreDesc, List.insertionSort,
      List.orderedInsert, scoreDescRel, rl1, rs1, List.dedup, List.pwFilter]
  refine ⟨by decide, ?_, ?_⟩
  · rw [hsearch]
    exact List.mem_singleton_self _
  · exact (C10_url_filter rl1 rs1 idx2 ["cat"] 5).2 1 (Or.inr (by decide))
      (SearchResult.mk 0 "http://a" 5)
      (by rw [hsearch]; exact List.mem_singleton_self _)

/-- A trivial model of the external tokenizer+stemmer: the query string is a
single already-stemmed term. -/
def tok0 : String → List String := fun q => [q]

/-- C3 (amended): for every `k ≥ 0`, `search` returns at most `k` results
(in particular `k = 0` yields the empty sequence), and for every `k` the
returned scores are non-increasing (`scoreDescRel` between consecutive
results).  The original claim also asserted emptiness for negative `k`,
which Python slice semantics refute (see the counterexample). -/
theorem C3_topk_bound (rlog rsqrt : ℚ → ℚ) (tok : String → List String)
    (idx : IndexData) (q : String) (k : ℤ) :
    (0 ≤ k → (search rlog rsqrt tok idx q k).length ≤ k.toNat) ∧
      (search rlog rsqrt tok idx q k).Sorted
        (fun a b => b.score ≤ a.score) := by
  constructor
  · intro hk
    simp only [search, searchTerms]
    split
    · simp
    · split
      · simp
      · split
        · simp
        · exact length_pyTake_le _ _ hk
  · simp only [search, searchTerms]
    split
    · exact List.sorted_nil
    · split
      · exact List.sorted_nil
      · split
        · exact List.sorted_nil
        · exact List.Pairwise.sublist (pyTake_sublist _ _)
            (sorted_sortByScoreDesc _)

/-- Witness for C3 at a concrete input: `k = 1` on the two-document sample
index returns at most one result, sorted. -/
theorem C3_topk_bound_witness :
    ((0:ℤ) ≤ 1 → (search rl1 rs1 tok0 idx0 "cat" 1).length ≤ (1:ℤ).toNat) ∧
      (search rl1 rs1 tok0 idx0 "cat" 1).Sorted
        (fun a b => b.score ≤ a.score) :=
  C3_topk_bound rl1 rs1 tok0 idx0 "cat" 1

/-- Counterexample for C3 as stated: with `top_k = -1` the Python slice
`scored_results[:-1]` drops only the last result, so the returned sequence
is non-empty — refuting both "`k ≤ 0` yields an empty sequence" and
"`len(search(q, k)) ≤ max(k, 0)`". -/
theorem C3_topk_counterexample :
    (-1 : ℤ) ≤ 0 ∧ search rl1 rs1 tok0 idx0 "cat" (-1) ≠ [] ∧
      ¬(((search rl1 rs1 tok0 idx0 "cat" (-1)).length : ℤ) ≤ max (-1) 0) := by
  have hsearch : search rl1 rs1 tok0 idx0 "cat" (-1) =
      [SearchResult.mk 0 "http://a" 5] := by
    norm_num [search, parse_query, tok0, searchTerms, boolean_and, docIdList,
      get_postings, idx0, lexCat, lexDog, p_cat0, p_cat1, p_dog0, p_dog1,
      score_documents, get_url, scoreDoc, termContribution, postingFor,
      get_doc_length, compute_idf, get_doc_freq, pyTake, sortByScoreDesc,
      List.insertionSort, List.orderedInsert, scoreDescRel, rl1, rs1,
      List.dedup, List.pwFilter]
  refine ⟨by decide, ?_, ?_⟩
  · rw [hsearch]
    exact List.cons_ne_nil _ _
  · rw [hsearch]
    decide

/-- C1 (amended): if any query term has empty postings (in particular, is
absent from the lexicon), `search` returns the empty sequence; the candidate
set computed by boolean AND is exactly the intersection, over all query
terms, of the sets of `doc_id`s in each term's postings; and the `doc_id`s
of the returned results are exactly this intersection whenever every
candidate has a non-empty URL and `top_k` is at least the candidate count.
The original claim asserted the last equality unconditionally, which the
`top_k` truncation and the URL filter refute (see the counterexample). -/
theorem C1_boolean_and_correct (rlog rsqrt : ℚ → ℚ) (idx : IndexData)
    (terms : List String) (k : ℤ) (hne : terms ≠ []) :
    ((∃ t ∈ terms, get_postings idx t = []) →
        searchTerms rlog rsqrt idx terms k = []) ∧
      (∀ d, d ∈ boolean_and idx terms ↔
        ∀ t ∈ terms, d ∈ docIdList (get_postings idx t)) ∧
      ((∀ d ∈ boolean_and idx terms, ∃ u, get_url idx d = some u ∧ u ≠ "") →
        ((boolean_and idx terms).length : ℤ) ≤ k →
        ∀ d, d ∈ (searchTerms rlog rsqrt idx terms k).map SearchResult.doc_id
          ↔ d ∈ boolean_and idx terms) := by
  obtain ⟨a, as, rfl⟩ : ∃ a as, terms = a :: as := by
    cases terms with
    | nil => exact absurd rfl hne
    | cons a as => exact ⟨a, as, rfl⟩
  have hmem : ∀ d, d ∈ boolean_and idx (a :: as) ↔
      ∀ t ∈ a :: as, d ∈ docIdList (get_postings idx t) := by
    intro d
    have hfold := mem_foldl_inter (fun u => docIdList (get_postings idx u))
      as (docIdList (get_postings idx a)) d
    simp only [boolean_and]
    rw [hfold]
    simp [List.forall_mem_cons]
  refine ⟨?_, hmem, ?_⟩
  · rintro ⟨t, ht, hp⟩
    have hany : ((a :: as).any fun u => (get_postings idx u).isEmpty) = true := by
      rw [List.any_eq_true]
      exact ⟨t, ht, by rw [hp]; rfl⟩
    simp [searchTerms, hany]
  · intro hurl hk d
    by_cases hany : ((a :: as).any fun u => (get_postings idx u).isEmpty) = true
    · obtain ⟨t, ht, hp⟩ := List.any_eq_true.mp hany
      have hpe : get_postings idx t = [] := by
        rwa [List.isEmpty_iff] at hp
      have hleft : searchTerms rlog rsqrt idx (a :: as) k = [] := by
        simp [searchTerms, hany]
      rw [hleft]
      simp only [List.map_nil, List.not_mem_nil, false_iff]
      intro hd
      have := (hmem d).mp hd t ht
      rw [hpe] at this
      simp [docIdList] at this
    · by_cases hcand : (boolean_and idx (a :: as)).isEmpty = true
      · have hleft : searchTerms rlog rsqrt idx (a :: as) k = [] := by
          simp [searchTerms, hany, hcand]
        rw [hleft, List.isEmpty_iff.mp hcand]
        simp
      · have hleft : searchTerms rlog rsqrt idx (a :: as) k =
            pyTake k (sortByScoreDesc (score_documents rlog rsqrt idx
              (boolean_and idx (a :: as)) (a :: as))) := by
          simp [searchTerms, hany, hcand]
        have hmap := score_documents_map_doc_id rlog rsqrt idx
          (boolean_and idx (a :: as)) (a :: as) hurl
        have hlensc : (score_documents rlog rsqrt idx
            (boolean_and idx (a :: as)) (a :: as)).length =
            (boolean_and idx (a :: as)).length := by
          conv_rhs => rw [← hmap]
          rw [List.length_map]
        have hlen : ((sortByScoreDesc (score_documents rlog rsqrt idx
            (boolean_and idx (a :: as)) (a :: as))).length : ℤ) ≤ k := by
          rw [(perm_sortByScoreDesc _).length_eq, hlensc]
          exact hk
        have h0k : (0:ℤ) ≤ k :=
          le_trans (Int.natCast_nonneg _) hlen
        rw [hleft, pyTake_of_length_le k _ h0k hlen]
        have hperm : List.Perm
            ((sortByScoreDesc (score_documents rlog rsqrt idx
                (boolean_and idx (a :: as)) (a :: as))).map SearchResult.doc_id)
            ((score_documents rlog rsqrt idx (boolean_and idx (a :: as))
                (a :: as)).map SearchResult.doc_id) :=
          (perm_sortByScoreDesc _).map SearchResult.doc_id
        rw [hmap] at hperm
        exact hperm.mem_iff

/-- Witness for C1 at a concrete input: the AND query ["cat", "dog"] on the
sample index, where both documents carry both terms and non-empty URLs and
`top_k = 5` exceeds the candidate count, returns exactly the intersection. -/
theorem C1_boolean_and_correct_witness :
    (0 ∈ (searchTerms rl1 rs1 idx0 ["cat", "dog"] 5).map
        SearchResult.doc_id ↔ 0 ∈ boolean_and idx0 ["cat", "dog"]) ∧
      (1 ∈ (searchTerms rl1 rs1 idx0 ["cat", "dog"] 5).map
        SearchResult.doc_id ↔ 1 ∈ boolean_and idx0 ["cat", "dog"]) := by
  have h := (C1_boolean_and_correct rl1 rs1 idx0 ["cat", "dog"] 5
    (by decide)).2.2 ?_ (by decide)
  · exact ⟨h 0, h 1⟩
  · intro d hd
    have hba : boolean_and idx0 ["cat", "dog"] = [0, 1] := by decide
    rw [hba] at hd
    rcases List.mem_cons.mp hd with h | h
    · exact ⟨"http://a", by rw [h]; decide, by decide⟩
    · rcases List.mem_cons.mp h with h2 | h2
      · exact ⟨"http://b", by rw [h2]; decide, by decide⟩
      · exact absurd h2 (List.not_mem_nil d)

/-- Counterexample for C1 as stated: for the query ["cat"] (whose postings
are non-empty) with `top_k = 1`, the result's `doc_id` set is `{0}`, not the
full intersection `{0, 1}` — truncation to `top_k` breaks the unconditional
set equality. -/
theorem C1_boolean_and_counterexample :
    get_postings idx0 "cat" ≠ [] ∧
      ¬(∀ d, d ∈ (searchTerms rl1 rs1 idx0 ["cat"] 1).map SearchResult.doc_id
          ↔ d ∈ boolean_and idx0 ["cat"]) := by
  have hsearch : searchTerms rl1 rs1 idx0 ["cat"] 1 =
      [SearchResult.mk 0 "http://a" 5] := by
    norm_num [searchTerms, boolean_and, docIdList, get_postings, idx0,
      lexCat, lexDog, p_cat0, p_cat1, p_dog0, p_dog1, score_documents,
      get_url, scoreDoc, termContribution, postingFor, get_doc_length,
      compute_idf, get_doc_freq, pyTake, sortByScoreDesc, List.insertionSort,
      List.orderedInsert, scoreDescRel, rl1, rs1, List.dedup, List.pwFilter]
  refine ⟨by decide, fun hall => ?_⟩
  have h1 := (hall 1).mpr (by decide)
  rw [hsearch] at h1
  simp at h1

/-! ### Index builder (`index_builder.py`) -/

/-- Mirrors `TokenStats` of `parser.py` (produced by the external
tokenizer/parser collaborator, one per stemmed term per document). -/
structure TokenStats where
  weighted_tf : ℚ
  raw_tf : Nat
  positions : List Nat
  deriving DecidableEq, Repr

/-- One successfully loaded corpus document: the `"url"` and `"content"`
fields of its JSON payload.  A corpus entry that fails to load
(`_load_document` returning `None`) is modelled as `none`. -/
structure Payload where
  url : String
  content : String
  deriving DecidableEq, Repr

/-- Mirrors `IndexBuilder._average`: the running float sum divided by the
count floored at 1 (`total / max(count, 1)`). -/
def average (values : List Nat) : ℚ :=
  (values.sum : ℚ) / (max values.length 1 : Nat)

/-- The `Posting` the builder appends for one term of one document
(`Posting(doc_id=..., weighted_tf=stats.weighted_tf, raw_tf=stats.raw_tf,
avg_position=self._average(stats.positions))`). -/
def mkPosting (d : Nat) (s : TokenStats) : Posting :=
  ⟨d, s.weighted_tf, s.raw_tf, average s.positions⟩

/-- The `1e-9` floor applied to document lengths. -/
def epsFloor : ℚ := 1 / 1000000000

/-- Mirrors `self._postings[term].append(posting)` on the `defaultdict`:
append to the term's list if the key exists, else create a new entry. -/
def addPosting (acc : List (String × List Posting)) (t : String) (p : Posting) :
    List (String × List Posting) :=
  if (acc.lookup t).isSome then
    acc.map (fun kv => if kv.1 = t then (kv.1, kv.2 ++ [p]) else kv)
  else acc ++ [(t, [p])]

/-- Look a term up in the postings accumulator, defaulting to the empty
list (the read counterpart of the `defaultdict`). -/
def mmLookup (acc : List (String × List Posting)) (t : String) : List Posting :=
  (acc.lookup t).getD []

/-- Mirrors the document-length accumulation of `IndexBuilder.build`:
`length += term_tf * term_tf` with `term_tf = 1 + log(1 + weighted_tf)`,
summed over the document's token stats. -/
def docLengthOf (rlog : ℚ → ℚ) (stats : List (String × TokenStats)) : ℚ :=
  stats.foldl
    (fun acc ts =>
      acc + (1 + rlog (1 + ts.2.weighted_tf)) * (1 + rlog (1 + ts.2.weighted_tf)))
    0

/-- The builder's mutable state: `doc_lookup`, `doc_lengths`,
`doc_seen_urls` (only its key set matters), the postings accumulator, and
the next `doc_id` to assign. -/
structure BuildState where
  doc_lookup : List (Nat × String)
  doc_lengths : List (Nat × ℚ)
  seen_urls : List String
  postings : List (String × List Posting)
  next_doc_id : Nat
  deriving DecidableEq

def initState : BuildState := ⟨[], [], [], [], 0⟩

/-- Mirrors one iteration of the loop in `IndexBuilder.build`: skip failed
loads; skip documents whose URL was already seen; otherwise record the URL,
parse the content into token stats, append one posting per term, store the
floored document length, and increment `doc_id`. -/
def processDoc (rlog : ℚ → ℚ) (parse : String → List (String × TokenStats))
    (st : BuildState) (payload : Option Payload) : BuildState :=
  match payload with
  | none => st
  | some p =>
    if p.url ∈ st.seen_urls then st
    else
      let stats := parse p.content
      { doc_lookup := st.doc_lookup ++ [(st.next_doc_id, p.url)]
        doc_lengths :=
          st.doc_lengths ++
            [(st.next_doc_id, max (docLengthOf rlog stats) epsFloor)]
        seen_urls := p.url :: st.seen_urls
        postings :=
          stats.foldl
            (fun acc ts => addPosting acc ts.1 (mkPosting st.next_doc_id ts.2))
            st.postings
        next_doc_id := st.next_doc_id + 1 }

/-- `IndexBuilder.build`'s loop over the corpus, from a given state. -/
def buildFrom (rlog : ℚ → ℚ) (parse : String → List (String × TokenStats))
    (st : BuildState) (corpus : List (Option Payload)) : BuildState :=
  corpus.foldl (processDoc rlog parse) st

/-- `IndexBuilder.build`'s loop over the corpus, from the initial state. -/
def buildIndex (rlog : ℚ → ℚ) (parse : String → List (String × TokenStats))
    (corpus : List (Option Payload)) : BuildState :=
  buildFrom rlog parse initState corpus

/-- `num_documents` as written by `_write_metadata`:
`len(self.doc_lookup)`. -/
def numDocumentsStat (st : BuildState) : Nat :=
  st.doc_lookup.length

/-- The URLs of the corpus entries that load successfully. -/
def loadedUrls (corpus : List (Option Payload)) : List String :=
  corpus.filterMap (fun o => o.map Payload.url)

/-- The successfully loaded payloads the builder actually indexes, given an
initial set of already-seen URLs: first occurrence of each URL wins. -/
def keptPayloads (seen : List String) : List (Option Payload) → List Payload
  | [] => []
  | none :: rest => keptPayloads seen rest
  | some p :: rest =>
    if p.url ∈ seen then keptPayloads seen rest
    else p :: keptPayloads (p.url :: seen) rest

/-- Characterization of a build: `doc_lookup`, `doc_lengths`, `seen_urls`
and `next_doc_id` of the final state, in terms of the payloads kept by
first-URL-wins deduplication. -/
theorem buildFrom_spec (rlog : ℚ → ℚ)
    (parse : String → List (String × TokenStats))
    (corpus : List (Option Payload)) :
    ∀ st : BuildState,
      (buildFrom rlog parse st corpus).doc_lookup =
          st.doc_lookup ++
            ((keptPayloads st.seen_urls corpus).enumFrom st.next_doc_id).map
              (fun ip => (ip.1, ip.2.url)) ∧
        (buildFrom rlog parse st corpus).doc_lengths =
          st.doc_lengths ++
            ((keptPayloads st.seen_urls corpus).enumFrom st.next_doc_id).map
              (fun ip =>
                (ip.1, max (docLengthOf rlog (parse ip.2.content)) epsFloor)) ∧
        (buildFrom rlog parse st corpus).next_doc_id =
          st.next_doc_id + (keptPayloads st.seen_urls corpus).length := by
  induction corpus with
  | nil => intro st; simp [buildFrom, keptPayloads]
  | cons o rest ih =>
    intro st
    cases o with
    | none =>
      have hstep : buildFrom rlog parse st (none :: rest) =
          buildFrom rlog parse st rest := rfl
      rw [hstep]
      exact ih st
    | some p =>
      by_cases hseen : p.url ∈ st.seen_urls
      · have hstep : buildFrom rlog parse st (some p :: rest) =
            buildFrom rlog parse st rest := by
          simp [buildFrom, processDoc, hseen]
        rw [hstep]
        have hkept : keptPayloads st.seen_urls (some p :: rest) =
            keptPayloads st.seen_urls rest := by
          simp [keptPayloads, hseen]
        rw [hkept]
        exact ih st
      · have hstep : buildFrom rlog parse st (some p :: rest) =
            buildFrom rlog parse (processDoc rlog parse st (some p)) rest := rfl
        have hkept : keptPayloads st.seen_urls (some p :: rest) =
            p :: keptPayloads (p.url :: st.seen_urls) rest := by
          simp [keptPayloads, hseen]
        obtain ⟨ih1, ih2, ih3⟩ := ih (processDoc rlog parse st (some p))
        have hpd : processDoc rlog parse st (some p) =
            { doc_lookup := st.doc_lookup ++ [(st.next_doc_id, p.url)]
              doc_lengths :=
                st.doc_lengths ++
                  [(st.next_doc_id,
                    max (docLengthOf rlog (parse p.content)) epsFloor)]
              seen_urls := p.url :: st.seen_urls
              postings :=
                (parse p.content).foldl
                  (fun acc ts =>
                    addPosting acc ts.1 (mkPosting st.next_doc_id ts.2))
                  st.postings
              next_doc_id := st.next_doc_id + 1 } := by
          simp [processDoc, hseen]
        rw [hpd] at ih1 ih2 ih3
        rw [hstep, hpd, hkept]
        refine ⟨?_, ?_, ?_⟩
        · rw [ih1]
          simp [List.enumFrom_cons]
        · rw [ih2]
          simp [List.enumFrom_cons]
        · rw [ih3]
          simp [List.length_cons]
          omega

/-- The URLs of the kept payloads avoid the initial seen set and contain no
duplicates. -/
theorem keptPayloads_urls_nodup (corpus : List (Option Payload)) :
    ∀ seen : List String,
      (∀ u ∈ (keptPayloads seen corpus).map Payload.url, u ∉ seen) ∧
        ((keptPayloads seen corpus).map Payload.url).Nodup := by
  induction corpus with
  | nil => intro seen; simp [keptPayloads]
  | cons o rest ih =>
    intro seen
    cases o with
    | none => exact ih seen
    | some p =>
      by_cases hseen : p.url ∈ seen
      · rw [keptPayloads, if_pos hseen]
        exact ih seen
      · rw [keptPayloads, if_neg hseen]
        obtain ⟨ihA, ihB⟩ := ih (p.url :: seen)
        rw [List.map_cons]
        constructor
        · intro u hu
          rcases List.mem_cons.mp hu with h | h
          · rw [h]; exact hseen
          · intro habs
            exact ihA u h (List.mem_cons_of_mem _ habs)
        · rw [List.nodup_cons]
          refine ⟨fun habs => ihA p.url habs (List.mem_cons_self _ _), ihB⟩

/-- Membership in the kept URLs: exactly the loaded URLs outside the seen
set. -/
theorem mem_keptPayloads_urls (corpus : List (Option Payload)) :
    ∀ (seen : List String) (u : String),
      u ∈ (keptPayloads seen corpus).map Payload.url ↔
        u ∈ loadedUrls corpus ∧ u ∉ seen := by
  induction corpus with
  | nil => intro seen u; simp [keptPayloads, loadedUrls]
  | cons o rest ih =>
    intro seen u
    cases o with
    | none =>
      rw [show keptPayloads seen (none :: rest) = keptPayloads seen rest
        from rfl]
      rw [ih seen u]
      simp [loadedUrls]
    | some p =>
      have hload : loadedUrls (some p :: rest) = p.url :: loadedUrls rest := by
        simp [loadedUrls]
      by_cases hseen : p.url ∈ seen
      · rw [keptPayloads, if_pos hseen, ih seen u, hload]
        constructor
        · rintro ⟨h1, h2⟩
          exact ⟨List.mem_cons_of_mem _ h1, h2⟩
        · rintro ⟨h1, h2⟩
          rcases List.mem_cons.mp h1 with h | h
          · exact absurd (h ▸ hseen) h2
          · exact ⟨h, h2⟩
      · rw [keptPayloads, if_neg hseen, List.map_cons, hload]
        rw [List.mem_cons, ih (p.url :: seen) u]
        constructor
        · rintro (h | ⟨h1, h2⟩)
          · exact ⟨h ▸ List.mem_cons_self _ _, h ▸ hseen⟩
          · exact ⟨List.mem_cons_of_mem _ h1,
              fun habs => h2 (List.mem_cons_of_mem _ habs)⟩
        · rintro ⟨h1, h2⟩
          rcases List.mem_cons.mp h1 with h | h
          · exact Or.inl h
          · by_cases hp : u = p.url
            · exact Or.inl hp
            · exact Or.inr ⟨h, fun habs => (List.mem_cons.mp habs).elim hp h2⟩

/-- C5: duplicate-URL suppression.  The URLs recorded in `doc_lookup` are
exactly those of the first-URL-wins kept payloads (so only the
first-encountered document with each URL is indexed), each URL appears in
`doc_lookup` at most once, a URL is indexed iff some loaded payload carries
it, the summary's `num_documents` is the number of `doc_lookup` entries, and
`doc_id` is incremented exactly once per indexed document. -/
theorem C5_duplicate_suppression (rlog : ℚ → ℚ)
    (parse : String → List (String × TokenStats))
    (corpus : List (Option Payload)) :
    (buildIndex rlog parse corpus).doc_lookup.map Prod.snd =
        (keptPayloads [] corpus).map Payload.url ∧
      ((buildIndex rlog parse corpus).doc_lookup.map Prod.snd).Nodup ∧
      (∀ u, u ∈ (buildIndex rlog parse corpus).doc_lookup.map Prod.snd ↔
        u ∈ loadedUrls corpus) ∧
      numDocumentsStat (buildIndex rlog parse corpus) =
        (buildIndex rlog parse corpus).doc_lookup.length ∧
      (buildIndex rlog parse corpus).next_doc_id =
        numDocumentsStat (buildIndex rlog parse corpus) := by
  obtain ⟨h1, _, h3⟩ := buildFrom_spec rlog parse corpus initState
  have hurls : (buildIndex rlog parse corpus).doc_lookup.map Prod.snd =
      (keptPayloads [] corpus).map Payload.url := by
    rw [buildIndex, h1]
    show (((keptPayloads [] corpus).enumFrom 0).map
        (fun ip => (ip.1, ip.2.url))).map Prod.snd = _
    rw [List.map_map]
    have : ∀ (l : List Payload) (n : Nat),
        (l.enumFrom n).map (Prod.snd ∘ fun ip => (ip.1, ip.2.url)) =
          l.map Payload.url := by
      intro l
      induction l with
      | nil => intro n; rfl
      | cons x xs ihx =>
        intro n
        rw [List.enumFrom_cons, List.map_cons, List.map_cons, ihx]
        rfl
    exact this _ 0
  refine ⟨hurls, ?_, ?_, rfl, ?_⟩
  · rw [hurls]
    exact (keptPayloads_urls_nodup corpus []).2
  · intro u
    rw [hurls, mem_keptPayloads_urls corpus [] u]
    simp
  · rw [buildIndex, h3, numDocumentsStat, h1]
    simp [List.length_map, List.enumFrom_length, initState]

/-- C6: stored document lengths.  Every value in `doc_lengths` is the
floored cosine-normalization denominator
`max (Σ (1 + log(1 + weighted_tf))²) 1e-9` of its document's token stats,
in corpus order over the kept payloads; consequently every stored length is
at least `1e-9 > 0`. -/
theorem C6_doc_length (rlog : ℚ → ℚ)
    (parse : String → List (String × TokenStats))
    (corpus : List (Option Payload)) :
    (buildIndex rlog parse corpus).doc_lengths.map Prod.snd =
        (keptPayloads [] corpus).map
          (fun p => max (docLengthOf rlog (parse p.content)) epsFloor) ∧
      (∀ pr ∈ (buildIndex rlog parse corpus).doc_lengths,
        epsFloor ≤ pr.2 ∧ 0 < pr.2) := by
  obtain ⟨_, h2, _⟩ := buildFrom_spec rlog parse corpus initState
  have hlens : (buildIndex rlog parse corpus).doc_lengths.map Prod.snd =
      (keptPayloads [] corpus).map
        (fun p => max (docLengthOf rlog (parse p.content)) epsFloor) := by
    rw [buildIndex, h2]
    show (((keptPayloads [] corpus).enumFrom 0).map
        (fun ip => (ip.1, max (docLengthOf rlog (parse ip.2.content))
          epsFloor))).map Prod.snd = _
    rw [List.map_map]
    have : ∀ (l : List Payload) (n : Nat),
        (l.enumFrom n).map
            ((Prod.snd : Nat × ℚ → ℚ) ∘ fun ip =>
              (ip.1, max (docLengthOf rlog (parse ip.2.content)) epsFloor)) =
          l.map (fun p => max (docLengthOf rlog (parse p.content)) epsFloor) := by
      intro l
      induction l with
      | nil => intro n; rfl
      | cons x xs ihx =>
        intro n
        rw [List.enumFrom_cons, List.map_cons, List.map_cons, ihx]
        rfl
    exact this _ 0
  refine ⟨hlens, ?_⟩
  intro pr hpr
  have hmem : pr.2 ∈ (buildIndex rlog parse corpus).doc_lengths.map Prod.snd :=
    List.mem_map_of_mem Prod.snd hpr
  rw [hlens] at hmem
  obtain ⟨p, _, hp⟩ := List.mem_map.mp hmem
  have heps : epsFloor ≤ pr.2 := by
    rw [← hp]
    exact le_max_right _ _
  exact ⟨heps, lt_of_lt_of_le (by norm_num [epsFloor]) heps⟩

/-- Witness for C6: a one-document corpus whose single term has
`weighted_tf = 1`; with `log` modelled as the identity the stored length is
`max ((1 + log 2)²) 1e-9 = 9`, which is at least `1e-9` and positive. -/
theorem C6_doc_length_witness :
    (0, (9:ℚ)) ∈ (buildIndex id
        (fun _ => [("t", TokenStats.mk 1 1 [1])])
        [some (Payload.mk "u" "c")]).doc_lengths ∧
      epsFloor ≤ (9:ℚ) ∧ (0:ℚ) < 9 := by
  have hmem : (0, (9:ℚ)) ∈ (buildIndex id
      (fun _ => [("t", TokenStats.mk 1 1 [1])])
      [some (Payload.mk "u" "c")]).doc_lengths := by
    norm_num [buildIndex, buildFrom, initState, processDoc, docLengthOf,
      epsFloor, addPosting, mkPosting, average]
  exact ⟨hmem,
    (C6_doc_length id (fun _ => [("t", TokenStats.mk 1 1 [1])])
      [some (Payload.mk "u" "c")]).2 (0, (9:ℚ)) hmem⟩

/-- C8 (amended): the posting the builder writes carries
`avg_position = _average(positions)`; for a non-empty position sequence this
is the arithmetic mean, and for an empty sequence it is `0.0` (the running
total `0.0` divided by the count floored at `1`), not `1.0` as the original
claim stated. -/
theorem C8_avg_position (s : TokenStats) (d : Nat) :
    (mkPosting d s).avg_position = average s.positions ∧
      (s.positions ≠ [] →
        average s.positions =
          (s.positions.sum : ℚ) / (s.positions.length : ℚ)) ∧
      average [] = 0 := by
  refine ⟨rfl, ?_, ?_⟩
  · intro h
    have hlen : max s.positions.length 1 = s.positions.length :=
      max_eq_left (by
        have : s.positions.length ≠ 0 :=
          fun h0 => h (List.length_eq_zero.mp h0)
        omega)
    rw [average, hlen]
  · rw [average]
    norm_num

/-- Witness for C8 at a concrete posting with two recorded positions. -/
theorem C8_avg_position_witness :
    (mkPosting 7 (TokenStats.mk 1 2 [2, 4])).avg_position =
        average (TokenStats.mk 1 2 [2, 4]).positions ∧
      average (TokenStats.mk 1 2 [2, 4]).positions =
        (((TokenStats.mk 1 2 [2, 4]).positions.sum : ℚ) /
          ((TokenStats.mk 1 2 [2, 4]).positions.length : ℚ)) :=
  ⟨(C8_avg_position (TokenStats.mk 1 2 [2, 4]) 7).1,
    (C8_avg_position (TokenStats.mk 1 2 [2, 4]) 7).2.1 (by decide)⟩

/-- Counterexample for C8 as stated: building a one-document corpus whose
single term has an empty recorded position sequence yields a posting with
`avg_position = 0`, not `1.0`. -/
theorem C8_avg_position_counterexample :
    mmLookup (buildIndex id (fun _ => [("t", TokenStats.mk 1 1 [])])
        [some (Payload.mk "u" "c")]).postings "t" =
      [Posting.mk 0 1 1 0] ∧
      (Posting.mk 0 1 1 0).avg_position ≠ 1 := by
  constructor
  · norm_num [buildIndex, buildFrom, initState, processDoc, addPosting,
      mkPosting, average, mmLookup, List.lookup]
  · norm_num

/-! ### On-disk index writing (`IndexBuilder._write_index`) and reading
(`IndexReader.get_postings`)

The JSON serialization of one postings block (`json.dumps` / `json.loads`,
Python standard library, an external collaborator) is modelled as an
abstract pair `encode`/`decode` of which we only assume what `json` in fact
guarantees: the encoding contains no newline or carriage-return characters
and `decode` inverts `encode`.  The postings file is a list of characters
(`offset`/`length` are `tell()` positions in it). -/

/-- Ordering of postings by `doc_id`
(`postings.sort(key=lambda posting: posting.doc_id)`). -/
def docIdLe (p q : Posting) : Prop :=
  p.doc_id ≤ q.doc_id

instance : DecidableRel docIdLe := fun p q =>
  inferInstanceAs (Decidable (p.doc_id ≤ q.doc_id))

instance : IsTotal Posting docIdLe :=
  ⟨fun p q => Nat.le_total p.doc_id q.doc_id⟩

instance : IsTrans Posting docIdLe :=
  ⟨fun _ _ _ h1 h2 => le_trans h1 h2⟩

/-- Stable ascending sort of a postings list by `doc_id`. -/
def sortPostings (ps : List Posting) : List Posting :=
  ps.insertionSort docIdLe

/-- `sorted(self._postings.keys())`: ascending lexicographic sort. -/
def sortStrings (l : List String) : List String :=
  l.insertionSort (· ≤ ·)

/-- Mirrors the loop body of `IndexBuilder._write_index` applied over the
sorted term list: serialize each term's doc_id-sorted postings followed by a
newline, record `offset = tell()` before the write and `length` as the
number of characters written, and append the lexicon record. -/
def writeIndex (encode : List Posting → List Char)
    (acc : List (String × List Posting)) : List Char × List LexiconEntry :=
  (sortStrings (acc.map Prod.fst)).foldl
    (fun out term =>
      let ps := sortPostings (mmLookup acc term)
      let block := encode ps ++ ['\n']
      (out.1 ++ block,
        out.2 ++ [LexiconEntry.mk term ps.length out.1.length block.length]))
    ([], [])

/-- The lexicon dict built by `IndexReader._load_lexicon`
(`lexicon[entry.term] = entry`): on duplicate terms the last record wins. -/
def lexLookup (lex : List LexiconEntry) (term : String) :
    Option LexiconEntry :=
  lex.reverse.find? (fun e => e.term == term)

/-- `f.readline()` after a seek: the characters up to and including the
first newline (or the whole rest if none). -/
def readline (s : List Char) : List Char :=
  let pre := s.takeWhile (fun c => !(c == '\n'))
  pre ++ (s.drop pre.length).take 1

/-- `postings_json.rstrip('\n\r')`. -/
def rstripNewlines (s : List Char) : List Char :=
  (s.reverse.dropWhile (fun c => c == '\n' || c == '\r')).reverse

/-- Mirrors `IndexReader.get_postings` against the on-disk artifacts:
look the term up in the lexicon dict, seek to its offset, read one line,
strip the trailing newline and deserialize. -/
def get_postings_disk (decode : List Char → List Posting) (file : List Char)
    (lex : List LexiconEntry) (term : String) : List Posting :=
  match lexLookup lex term with
  | none => []
  | some e => decode (rstripNewlines (readline (file.drop e.offset)))

/-- The doc_id-sorted postings block written for one term. -/
def psFor (acc : List (String × List Posting)) (term : String) :
    List Posting :=
  sortPostings (mmLookup acc term)

/-- The characters written for one term: its serialized block plus the
trailing newline. -/
def blockOf (encode : List Posting → List Char)
    (acc : List (String × List Posting)) (term : String) : List Char :=
  encode (psFor acc term) ++ ['\n']

/-- The lexicon records produced for a term list when the write starts at
character position `n`. -/
def entriesOf (encode : List Posting → List Char)
    (acc : List (String × List Posting)) :
    List String → Nat → List LexiconEntry
  | [], _ => []
  | t :: ts, n =>
    LexiconEntry.mk t (psFor acc t).length n (blockOf encode acc t).length ::
      entriesOf encode acc ts (n + (blockOf encode acc t).length)

theorem writeFold_spec (encode : List Posting → List Char)
    (acc : List (String × List Posting)) :
    ∀ (ts : List String) (file0 : List Char) (lex0 : List LexiconEntry),
      ts.foldl
          (fun out term =>
            let ps := sortPostings (mmLookup acc term)
            let block := encode ps ++ ['\n']
            (out.1 ++ block,
              out.2 ++
                [LexiconEntry.mk term ps.length out.1.length block.length]))
          (file0, lex0) =
        (file0 ++ (ts.map (blockOf encode acc)).flatten,
          lex0 ++ entriesOf encode acc ts file0.length) := by
  intro ts
  induction ts with
  | nil => intro file0 lex0; simp [entriesOf]
  | cons t ts ih =>
    intro file0 lex0
    rw [List.foldl_cons, ih]
    rw [List.map_cons, List.flatten_cons]
    rw [entriesOf]
    simp only [psFor, blockOf]
    rw [List.length_append]
    simp [List.append_assoc]

theorem writeIndex_eq (encode : List Posting → List Char)
    (acc : List (String × List Posting)) :
    writeIndex encode acc =
      (((sortStrings (acc.map Prod.fst)).map (blockOf encode acc)).flatten,
        entriesOf encode acc (sortStrings (acc.map Prod.fst)) 0) := by
  rw [writeIndex, writeFold_spec]
  simp

theorem mem_entriesOf_term (encode : List Posting → List Char)
    (acc : List (String × List Posting)) :
    ∀ (ts : List String) (n : Nat) (e : LexiconEntry),
      e ∈ entriesOf encode acc ts n → e.term ∈ ts := by
  intro ts
  induction ts with
  | nil => intro n e he; exact absurd he (List.not_mem_nil e)
  | cons t ts ih =>
    intro n e he
    rcases List.mem_cons.mp he with h | h
    · rw [h]; exact List.mem_cons_self _ _
    · exact List.mem_cons_of_mem _ (ih _ e h)

theorem entriesOf_locate (encode : List Posting → List Char)
    (acc : List (String × List Posting)) :
    ∀ (ts : List String) (n : Nat) (term : String), ts.Nodup → term ∈ ts →
      ∃ pre suf : List Char,
        (ts.map (blockOf encode acc)).flatten =
            pre ++ blockOf encode acc term ++ suf ∧
          lexLookup (entriesOf encode acc ts n) term =
            some (LexiconEntry.mk term (psFor acc term).length
              (n + pre.length) (blockOf encode acc term).length) := by
  intro ts
  induction ts with
  | nil => intro n term _ hmem; exact absurd hmem (List.not_mem_nil term)
  | cons t ts ih =>
    intro n term hnd hmem
    rcases List.mem_cons.mp hmem with heq | hmem2
    · subst heq
      refine ⟨[], (ts.map (blockOf encode acc)).flatten, by simp, ?_⟩
      have hnone : (entriesOf encode acc ts
          (n + (blockOf encode acc term).length)).reverse.find?
            (fun e => e.term == term) = none := by
        rw [List.find?_eq_none]
        intro e he
        have hterm : e.term ∈ ts :=
          mem_entriesOf_term encode acc ts _ e (List.mem_reverse.mp he)
        have hne : e.term ≠ term := by
          intro habs
          exact (List.nodup_cons.mp hnd).1 (habs ▸ hterm)
        simp [hne]
      rw [entriesOf, lexLookup, List.reverse_cons, List.find?_append, hnone]
      simp
    · have hnd2 : ts.Nodup := (List.nodup_cons.mp hnd).2
      obtain ⟨pre, suf, hjoin, hfind⟩ :=
        ih (n + (blockOf encode acc t).length) term hnd2 hmem2
      refine ⟨blockOf encode acc t ++ pre, suf, ?_, ?_⟩
      · rw [List.map_cons, List.flatten_cons, hjoin]
        simp [List.append_assoc]
      · rw [entriesOf, lexLookup, List.reverse_cons, List.find?_append]
        rw [lexLookup] at hfind
        rw [hfind]
        rw [List.length_append]
        have : n + (blockOf encode acc t).length + pre.length =
            n + ((blockOf encode acc t).length + pre.length) := by omega
        rw [this]
        rfl

theorem dropWhile_eq_self_of_forall {p : Char → Bool} :
    ∀ l : List Char, (∀ c ∈ l, p c = false) → l.dropWhile p = l := by
  intro l h
  cases l with
  | nil => rfl
  | cons c l =>
    rw [List.dropWhile_cons, h c (List.mem_cons_self _ _)]
    simp

theorem takeWhile_append_cons {p : Char → Bool} (y : Char)
    (hy : p y = false) :
    ∀ (l r : List Char), (∀ c ∈ l, p c = true) →
      (l ++ y :: r).takeWhile p = l := by
  intro l
  induction l with
  | nil => intro r _; simp [List.takeWhile_cons, hy]
  | cons c l ih =>
    intro r hall
    rw [List.cons_append, List.takeWhile_cons,
      hall c (List.mem_cons_self _ _)]
    simp only [if_true]
    rw [ih r (fun x hx => hall x (List.mem_cons_of_mem _ hx))]

/-- C2: round-trip of the on-disk postings format.  For every term present
in the accumulator (whose keys, like the Python dict's, are distinct), the
lexicon written by `_write_index` holds an entry for the term such that the
file characters `[offset, offset+length)` are exactly that term's serialized
block (plus the trailing newline, which `length = tell() - offset` counts),
`get_postings` recovers exactly the postings accumulated for the term during
the build, sorted ascending by `doc_id`, and `doc_freq` is their count. -/
theorem C2_round_trip (encode : List Posting → List Char)
    (decode : List Char → List Posting)
    (hchar : ∀ (ps : List Posting) (c : Char), c ∈ encode ps →
      c ≠ '\n' ∧ c ≠ '\r')
    (hdec : ∀ ps : List Posting, decode (encode ps) = ps)
    (acc : List (String × List Posting))
    (hkeys : (acc.map Prod.fst).Nodup)
    (term : String) (hterm : term ∈ acc.map Prod.fst) :
    ∃ e : LexiconEntry,
      lexLookup (writeIndex encode acc).2 term = some e ∧
        e.term = term ∧
        ((writeIndex encode acc).1.drop e.offset).take e.length =
          encode (sortPostings (mmLookup acc term)) ++ ['\n'] ∧
        get_postings_disk decode (writeIndex encode acc).1
            (writeIndex encode acc).2 term =
          sortPostings (mmLookup acc term) ∧
        List.Perm (sortPostings (mmLookup acc term)) (mmLookup acc term) ∧
        (sortPostings (mmLookup acc term)).Pairwise
          (fun p q => p.doc_id ≤ q.doc_id) ∧
        e.doc_freq = (sortPostings (mmLookup acc term)).length := by
  have hnd : (sortStrings (acc.map Prod.fst)).Nodup :=
    (List.perm_insertionSort _ _).nodup_iff.mpr hkeys
  have hmem : term ∈ sortStrings (acc.map Prod.fst) :=
    (List.perm_insertionSort _ _).mem_iff.mpr hterm
  obtain ⟨pre, suf, hjoin, hfind⟩ :=
    entriesOf_locate encode acc (sortStrings (acc.map Prod.fst)) 0 term hnd
      hmem
  refine ⟨LexiconEntry.mk term (psFor acc term).length (0 + pre.length)
    (blockOf encode acc term).length, ?_, rfl, ?_, ?_, ?_, ?_, ?_⟩
  · rw [writeIndex_eq]
    exact hfind
  · rw [writeIndex_eq]
    show (((sortStrings (acc.map Prod.fst)).map
        (blockOf encode acc)).flatten.drop (0 + pre.length)).take
        (blockOf encode acc term).length = _
    rw [hjoin, Nat.zero_add, List.append_assoc, List.drop_left,
      List.take_left' rfl]
    rfl
  · rw [writeIndex_eq]
    simp only [get_postings_disk, hfind]
    simp only [Nat.zero_add]
    rw [hjoin, List.append_assoc, List.drop_left]
    have hblock : blockOf encode acc term ++ suf =
        encode (psFor acc term) ++ '\n' :: suf := by
      rw [blockOf]
      simp
    rw [hblock]
    have htw : (encode (psFor acc term) ++ '\n' :: suf).takeWhile
        (fun c => !(c == '\n')) = encode (psFor acc term) := by
      refine takeWhile_append_cons '\n' (by simp) _ _ ?_
      intro c hc
      simp [(hchar _ c hc).1]
    have hrl : readline (encode (psFor acc term) ++ '\n' :: suf) =
        encode (psFor acc term) ++ ['\n'] := by
      rw [readline]
      simp only [htw]
      rw [List.drop_left]
      cases suf <;> rfl
    rw [hrl]
    have hrev : (encode (psFor acc term) ++ ['\n']).reverse =
        '\n' :: (encode (psFor acc term)).reverse := by
      rw [List.reverse_append]
      rfl
    have hrs : rstripNewlines (encode (psFor acc term) ++ ['\n']) =
        encode (psFor acc term) := by
      unfold rstripNewlines
      rw [hrev, List.dropWhile_cons]
      simp only [show (('\n' == '\n') || ('\n' == '\r')) = true from rfl,
        if_true]
      rw [dropWhile_eq_self_of_forall _ ?_]
      · exact List.reverse_reverse _
      · intro c hc
        have hc2 := hchar _ c (List.mem_reverse.mp hc)
        simp [hc2.1, hc2.2]
    rw [hrs, hdec]
    rfl
  · exact List.perm_insertionSort docIdLe (mmLookup acc term)
  · exact List.sorted_insertionSort docIdLe (mmLookup acc term)
  · rfl

def postingEquivProd : Posting ≃ Nat × ℚ × Nat × ℚ where
  toFun p := (p.doc_id, p.weighted_tf, p.raw_tf, p.avg_position)
  invFun x := ⟨x.1, x.2.1, x.2.2.1, x.2.2.2⟩
  left_inv _ := rfl
  right_inv _ := rfl

instance : Encodable Posting :=
  Encodable.ofEquiv _ postingEquivProd

/-- A concrete lawful serialization (unary counting of a `Encodable` code)
used to instantiate the abstract `json.dumps` of the C2 round-trip. -/
def encodeW (ps : List Posting) : List Char :=
  List.replicate (Encodable.encode ps) 'a'

/-- The matching deserializer for `encodeW`. -/
def decodeW (s : List Char) : List Posting :=
  (Encodable.decode (s.count 'a')).getD []

theorem encodeW_chars (ps : List Posting) (c : Char) (hc : c ∈ encodeW ps) :
    c ≠ '\n' ∧ c ≠ '\r' := by
  have hca : c = 'a' := List.eq_of_mem_replicate hc
  rw [hca]
  exact ⟨by decide, by decide⟩

theorem decodeW_encodeW (ps : List Posting) : decodeW (encodeW ps) = ps := by
  rw [decodeW, encodeW, List.count_replicate_self, Encodable.encodek]
  rfl

/-- A tiny accumulator with one term and two postings (out of `doc_id`
order, so the write must sort them). -/
def accW : List (String × List Posting) :=
  [("t", [Posting.mk 1 2 3 4, Posting.mk 0 5 6 7])]

/-- Witness for C2: the round-trip conclusion at the concrete serializer
`encodeW`/`decodeW` and the concrete accumulator `accW`. -/
theorem C2_round_trip_witness :
    ∃ e : LexiconEntry,
      lexLookup (writeIndex encodeW accW).2 "t" = some e ∧
        e.term = "t" ∧
        ((writeIndex encodeW accW).1.drop e.offset).take e.length =
          encodeW (sortPostings (mmLookup accW "t")) ++ ['\n'] ∧
        get_postings_disk decodeW (writeIndex encodeW accW).1
            (writeIndex encodeW accW).2 "t" =
          sortPostings (mmLookup accW "t") ∧
        List.Perm (sortPostings (mmLookup accW "t")) (mmLookup accW "t") ∧
        (sortPostings (mmLookup accW "t")).Pairwise
          (fun p q => p.doc_id ≤ q.doc_id) ∧
        e.doc_freq = (sortPostings (mmLookup accW "t")).length :=
  C2_round_trip encodeW decodeW encodeW_chars decodeW_encodeW accW
    (by decide) "t" (by decide)

/-! ### Corpus iteration (`IndexBuilder._iter_corpus_files`)

The filesystem is an external collaborator: `Path.iterdir()` yields entries
in an order the OS chooses, so a model of the corpus layout carries the
enumeration order explicitly.  `_iter_corpus_files` sorts the domain
folders by name but iterates each folder's files in raw `iterdir()`
order. -/

/-- An entry of the corpus root as seen by `iterdir()`. -/
structure DirEntry where
  name : String
  is_dir : Bool
  deriving DecidableEq, Repr

/-- An entry of a domain folder as seen by `iterdir()`. -/
structure FileEntry where
  name : String
  is_file : Bool
  suffix : String
  deriving DecidableEq, Repr

/-- A corpus directory tree together with the enumeration order the
filesystem happens to produce. -/
structure FSModel where
  rootEntries : List DirEntry
  folderFiles : String → List FileEntry

/-- ASCII lowering of one character, as Python's `str.lower()` acts on
ASCII file suffixes. -/
def lowerChar (c : Char) : Char :=
  if 'A' ≤ c && c ≤ 'Z' then Char.ofNat (c.toNat + 32) else c

/-- `suffix.lower()` over the characters of the string. -/
def lowerString (s : String) : String :=
  String.mk (s.data.map lowerChar)

/-- `f.is_file() and f.suffix.lower() == ".json"`. -/
def isJsonFile (f : FileEntry) : Bool :=
  f.is_file && (lowerString f.suffix == ".json")

/-- The domain folders, sorted by name
(`domain_folders.sort(key=lambda x: x.name)`). -/
def sortedDomainFolders (fs : FSModel) : List String :=
  sortStrings ((fs.rootEntries.filter (fun e => e.is_dir)).map DirEntry.name)

/-- Mirrors `IndexBuilder._iter_corpus_files`: for each sorted domain
folder, yield its JSON files in raw enumeration order, as
(folder, filename) pairs. -/
def iterCorpusFiles (fs : FSModel) : List (String × String) :=
  ((sortedDomainFolders fs).map (fun folder =>
    ((fs.folderFiles folder).filter isJsonFile).map
      (fun f => (folder, f.name)))).flatten

/-- C7 (amended): the folder-level order is deterministic — any two corpus
roots with the same entries (as a multiset) yield the same sorted folder
sequence — and two builds visit the same files in the same order whenever,
additionally, the filesystem enumerates every folder's files identically.
The original claim asserted full determinism of the file order, but the
files inside each folder are yielded in raw `iterdir()` order, which the
code never sorts (see the counterexample). -/
theorem C7_deterministic_iteration (fs1 fs2 : FSModel)
    (hroot : List.Perm fs1.rootEntries fs2.rootEntries) :
    sortedDomainFolders fs1 = sortedDomainFolders fs2 ∧
      ((∀ f, fs1.folderFiles f = fs2.folderFiles f) →
        iterCorpusFiles fs1 = iterCorpusFiles fs2) := by
  have hperm : List.Perm
      ((fs1.rootEntries.filter (fun e => e.is_dir)).map DirEntry.name)
      ((fs2.rootEntries.filter (fun e => e.is_dir)).map DirEntry.name) :=
    (hroot.filter _).map _
  have hsorted : sortedDomainFolders fs1 = sortedDomainFolders fs2 :=
    List.eq_of_perm_of_sorted
      (((List.perm_insertionSort _ _).trans hperm).trans
        (List.perm_insertionSort _ _).symm)
      (List.sorted_insertionSort _ _) (List.sorted_insertionSort _ _)
  refine ⟨hsorted, fun hff => ?_⟩
  have hfun : fs1.folderFiles = fs2.folderFiles := funext hff
  rw [iterCorpusFiles, iterCorpusFiles, hsorted, hfun]

/-- Two root enumerations of the same two domain folders, in opposite
orders; the per-folder file listings agree. -/
def fsA : FSModel where
  rootEntries := [DirEntry.mk "d2" true, DirEntry.mk "d1" true]
  folderFiles := fun f =>
    if f = "d1" then [FileEntry.mk "a.json" true ".json"]
    else if f = "d2" then [FileEntry.mk "b.json" true ".json"]
    else []

def fsB : FSModel where
  rootEntries := [DirEntry.mk "d1" true, DirEntry.mk "d2" true]
  folderFiles := fsA.folderFiles

/-- Witness for C7: permuted root enumerations with identical per-folder
listings yield identical folder order and file order. -/
theorem C7_deterministic_iteration_witness :
    sortedDomainFolders fsA = sortedDomainFolders fsB ∧
      iterCorpusFiles fsA = iterCorpusFiles fsB :=
  ⟨(C7_deterministic_iteration fsA fsB (by decide)).1,
    (C7_deterministic_iteration fsA fsB (by decide)).2 (fun _ => rfl)⟩

/-- One domain folder whose two JSON files the filesystem enumerates in one
order... -/
def fsC : FSModel where
  rootEntries := [DirEntry.mk "d" true]
  folderFiles := fun f =>
    if f = "d" then [FileEntry.mk "a.json" true ".json",
      FileEntry.mk "b.json" true ".json"]
    else []

/-- ... and the same folder with the same two files enumerated in the
opposite order (`folderFiles` agrees with `fsC` on every other folder,
both being empty). -/
def fsD : FSModel where
  rootEntries := [DirEntry.mk "d" true]
  folderFiles := fun f =>
    if f = "d" then [FileEntry.mk "b.json" true ".json",
      FileEntry.mk "a.json" true ".json"]
    else []

/-- Counterexample for C7 as stated: `fsC` and `fsD` describe the same
corpus (equal root entries, per-folder file sets equal as multisets), yet
`_iter_corpus_files` visits the files in different orders, because files
within a folder are yielded in raw enumeration order, never sorted. -/
theorem C7_deterministic_iteration_counterexample :
    fsC.rootEntries = fsD.rootEntries ∧
      List.Perm (fsC.folderFiles "d") (fsD.folderFiles "d") ∧
      iterCorpusFiles fsC ≠ iterCorpusFiles fsD := by decide

end SearchEngineModel
